import Mathlib

set_option maxRecDepth 8192

/-!
A Lean model of the brainfuck interpreter in `src/main.rs`, together with
theorems about its evaluator.

Modelling conventions:
* The source text handed to `eval` is a list of bytes (`List Nat`, each < 256
  in practice), because the Rust code slices the `&str` by byte index
  (`&code[i..i+1]`, `&code[a+1..b]`) and walks it by byte position.
* Machine integers are `Nat` with explicit reduction: `u16` cell values are
  taken modulo 65536 and the `usize` cursor modulo 2^64.  Unchecked Rust
  arithmetic (`+= 1`, `-= 1`) is given the wrapping semantics of an
  optimized (release) build; slice indexing stays checked and a failed
  index or char-boundary check is modelled as an abort result, mirroring
  the runtime panic.
* `print!` output is collected as the list of emitted character codes;
  `io::stdin().read_line` input is a list of lines, each a byte list.
* The Rust evaluator's `while` loops and the `eval`/`apply` recursion are
  not structurally terminating (brainfuck programs may loop forever), so
  the model threads an explicit fuel counter; running out of fuel is a
  distinct result constructor, never identified with normal or panicking
  termination.
* The `Operation` enum and the `apply` function in the source are a pure
  dispatch layer: each `match` arm of `apply` calls exactly one of the
  `impl Operation` functions.  The model inlines that dispatch and calls
  the operation functions directly.
-/

namespace Brainfuck

/-- `const CAPACITY: usize = 30000;` -/
def CAPACITY : Nat := 30000

/-- Modulus of `u16` cell values. -/
def u16Mod : Nat := 65536

/-- Modulus of the `usize` cursor. -/
def usizeMod : Nat := 2 ^ 64

/-- `struct Memory { pointer: usize, data: Vec<u16> }` -/
structure Memory where
  pointer : Nat
  data : List Nat
  deriving Repr, DecidableEq

/-- `Memory::new(capacity)`: zeroed cells, cursor at 0. -/
def Memory.new (capacity : Nat) : Memory :=
  { pointer := 0, data := List.replicate capacity 0 }

/-- The abrupt-termination causes of the interpreter: each constructor is a
panic site of the Rust code.  `indexOutOfBounds` is `Vec` indexing with an
out-of-range index; `noByteRead` is the `.expect("no byte read")` in `scan`;
`mismatchBrackets` is the `panic!("Invalid code, mismatch brackets.")` in
`eval`; `charBoundary` is a string-slice panic (byte index not on a char
boundary, or an out-of-range slice). -/
inductive AbortKind where
  | indexOutOfBounds
  | noByteRead
  | mismatchBrackets
  | charBoundary
  deriving Repr, DecidableEq

/-- `Operation::inc_pointer`: `memory.pointer += 1` (unchecked `usize`
arithmetic, wraps at 2^64). -/
def inc_pointer (m : Memory) : Memory :=
  { m with pointer := (m.pointer + 1) % usizeMod }

/-- `Operation::dec_pointer`: `memory.pointer -= 1` (unchecked `usize`
arithmetic: `0 - 1` wraps to `2^64 - 1`). -/
def dec_pointer (m : Memory) : Memory :=
  { m with pointer := (m.pointer + (usizeMod - 1)) % usizeMod }

/-- `Operation::inc_value`: `memory.data[memory.pointer] += 1`.  Indexing
panics when the cursor is out of range; the `u16` addition wraps at 65536. -/
def inc_value (m : Memory) : Except AbortKind Memory :=
  if m.pointer < m.data.length then
    .ok { m with data := m.data.set m.pointer ((m.data.getD m.pointer 0 + 1) % u16Mod) }
  else .error .indexOutOfBounds

/-- `Operation::dec_value`: `memory.data[memory.pointer] -= 1`.  Indexing
panics when the cursor is out of range; the `u16` subtraction wraps at 0. -/
def dec_value (m : Memory) : Except AbortKind Memory :=
  if m.pointer < m.data.length then
    .ok { m with data := m.data.set m.pointer ((m.data.getD m.pointer 0 + (u16Mod - 1)) % u16Mod) }
  else .error .indexOutOfBounds

/-- `Operation::print`: `print!("{}", memory.data[memory.pointer] as u8 as
char)`.  Returns the emitted character code: the cell value truncated to its
low 8 bits (`as u8`), then read as a code point (`as char`, always valid for
one byte).  Indexing panics when the cursor is out of range. -/
def printOp (m : Memory) : Except AbortKind Nat :=
  if m.pointer < m.data.length then
    .ok (m.data.getD m.pointer 0 % 256)
  else .error .indexOutOfBounds

/-- `Operation::scan`: `read_line` one line, take `input.bytes().nth(0)`
(the first byte of the line, `.expect("no byte read")` panics when the line
has no bytes, i.e. on end of input), widen with `as u16` (value-preserving),
and store it in the current cell.  The store indexes `data` and panics when
the cursor is out of range.  Returns the updated memory and remaining input. -/
def scanOp (m : Memory) (input : List (List Nat)) :
    Except AbortKind (Memory × List (List Nat)) :=
  match input with
  | [] => .error .noByteRead
  | line :: rest =>
    match line with
    | [] => .error .noByteRead
    | b :: _ =>
      if m.pointer < m.data.length then
        .ok ({ m with data := m.data.set m.pointer b }, rest)
      else .error .indexOutOfBounds

/-- Byte length of the UTF-8 character led by byte `b`, as `str::chars`
would decode it.  Continuation bytes (0x80–0xBF) never lead a character of a
valid UTF-8 string; they are given length 1 here, but that case is
unreachable from the evaluator. -/
def utf8Len (b : Nat) : Nat :=
  if b < 128 then 1
  else if b < 224 then 2
  else if b < 240 then 3
  else 4

/-- The scan loop of `find_next`, walking `code[i..].chars().enumerate()`
byte by byte: `skip` counts the continuation bytes still belonging to the
character currently being decoded (so `chars` is simulated without a
separate decoder), `p` is the running character index (`enumerate`), `d`
the bracket-stack length.  `'['` pushes; `']'` returns the character index
when the stack has exactly one entry and pops otherwise (`Vec::pop` on an
empty stack is a no-op, matching `Nat` truncated subtraction). -/
def findNextAux : List Nat → Nat → Nat → Nat → Option Nat
  | [], _, _, _ => none
  | _ :: rest, skip + 1, p, d => findNextAux rest skip p d
  | b :: rest, 0, p, d =>
    if b = 91 then
      findNextAux rest 0 (p + 1) (d + 1)
    else if b = 93 then
      if d = 1 then some p else findNextAux rest 0 (p + 1) (d - 1)
    else
      findNextAux rest (utf8Len b - 1) (p + 1) d

/-- `find_next(code, i)`: scan `code[i..]` for the bracket matching the `[`
at byte position `i`.  The returned `Some(p + i)` adds the *character* index
`p` within the suffix to the byte index `i` (these agree for ASCII text). -/
def find_next (code : List Nat) (i : Nat) : Option Nat :=
  (findNextAux (code.drop i) 0 0 0).map (· + i)

/-- The interpreter state surrounding the memory: bytes written so far by
`print!` (as character codes) and the lines still unread on standard input. -/
structure St where
  mem : Memory
  out : List Nat
  input : List (List Nat)
  deriving Repr, DecidableEq

/-- Result of a fueled evaluation: normal return, a runtime panic carrying
the state at the moment of the panic, or fuel exhaustion (the modelling
artifact for a computation still running). -/
inductive Res where
  | ok : St → Res
  | abort : AbortKind → St → Res
  | outOfFuel : Res
  deriving Repr, DecidableEq

/-- `str::is_char_boundary(j)`: true at 0 and at the length, and otherwise
exactly when the byte at `j` is not a UTF-8 continuation byte. -/
def isCharBoundary (code : List Nat) (j : Nat) : Bool :=
  j = 0 || j = code.length ||
    (decide (j < code.length) && !(128 ≤ code.getD j 0 && code.getD j 0 < 192))

mutual

/-- `eval(code, memory)`, started at scan position `i`.  Each iteration of
the Rust `while i < code.len()` loop slices `&code[i..i+1]` (a panic when
`i` or `i+1` is not a char boundary) and dispatches on the byte.  The `[`
arm calls `find_next` and, on success, enters the condition-checked loop
(`bracketLoop`); on failure it panics `"Invalid code, mismatch brackets."`.
Every byte without a match arm — including `]` — just advances `i`. -/
def eval : Nat → List Nat → Nat → St → Res
  | 0, _, _, _ => .outOfFuel
  | fuel + 1, code, i, s =>
    if i < code.length then
      if isCharBoundary code i && isCharBoundary code (i + 1) then
        match code.getD i 0 with
        | 62 => eval fuel code (i + 1) { s with mem := inc_pointer s.mem }
        | 60 => eval fuel code (i + 1) { s with mem := dec_pointer s.mem }
        | 43 =>
          match inc_value s.mem with
          | .ok m => eval fuel code (i + 1) { s with mem := m }
          | .error k => .abort k s
        | 45 =>
          match dec_value s.mem with
          | .ok m => eval fuel code (i + 1) { s with mem := m }
          | .error k => .abort k s
        | 46 =>
          match printOp s.mem with
          | .ok c => eval fuel code (i + 1) { s with out := s.out ++ [c] }
          | .error k => .abort k s
        | 44 =>
          match scanOp s.mem s.input with
          | .ok (m, rest) => eval fuel code (i + 1) { s with mem := m, input := rest }
          | .error k => .abort k s
        | 91 =>
          match find_next code i with
          | none => .abort .mismatchBrackets s
          | some e => bracketLoop fuel code i e s
        | _ => eval fuel code (i + 1) s
      else .abort .charBoundary s
    else .ok s

/-- The `while memory.data[memory.pointer] != 0` loop of the `[` arm, with
`start` the position of the `[` and `e` the position `find_next` returned.
Reading the condition indexes `data` (a panic when the cursor is out of
range).  While non-zero, `apply`/`eval_loop` evaluates `&code[start+1..e]`
(the slice panics when an endpoint is not a char boundary or the range is
invalid) against the same state, then the condition is re-read.  When the
condition is zero the scan resumes at `i += e - start + 1`. -/
def bracketLoop : Nat → List Nat → Nat → Nat → St → Res
  | 0, _, _, _, _ => .outOfFuel
  | fuel + 1, code, start, e, s =>
    if s.mem.pointer < s.mem.data.length then
      if s.mem.data.getD s.mem.pointer 0 = 0 then
        eval fuel code (start + (e - start) + 1) s
      else
        if start + 1 ≤ e && e ≤ code.length &&
            isCharBoundary code (start + 1) && isCharBoundary code e then
          match eval fuel ((code.drop (start + 1)).take (e - (start + 1))) 0 s with
          | .ok s2 => bracketLoop fuel code start e s2
          | r => r
        else .abort .charBoundary s
    else .abort .indexOutOfBounds s

end

/-- The state `main` starts evaluation in: a fresh `Memory::new(CAPACITY)`,
nothing printed, and the given standard-input lines. -/
def initState (input : List (List Nat)) : St :=
  { mem := Memory.new CAPACITY, out := [], input := input }

/-- Specification-side definition (from the design document's description of
bracket matching): the nesting depth after reading the first `j` bytes of
`s`, counting `+1` for each `[` and `-1` for each `]`. -/
def bracketDepth (s : List Nat) (j : Nat) : Int :=
  ((s.take j).count 91 : Int) - ((s.take j).count 93 : Int)

/-- Specification-side definition of the matching bracket: for a `[` at
position `i` of `code`, position `e` holds the `]` that balances all nested
`[`/`]` pairs in between, i.e. the depth over the segment from `i` returns
to 0 exactly when the `]` at `e` is consumed, staying positive at every
intermediate point. -/
def MatchSpec (code : List Nat) (i e : Nat) : Prop :=
  i < e ∧ e < code.length ∧ code.getD e 0 = 93 ∧
    bracketDepth (code.drop i) (e - i + 1) = 0 ∧
    ∀ k, i < k → k ≤ e → 1 ≤ bracketDepth (code.drop i) (k - i)

/-! ### List helper lemmas -/

lemma getD_drop' (l : List Nat) (n m d : Nat) :
    (l.drop n).getD m d = l.getD (n + m) d := by
  induction l generalizing n m with
  | nil => simp
  | cons a t ih =>
    cases n with
    | zero => simp
    | succ n =>
      simp [Nat.succ_add, ih n m]

lemma getD_mem_of_lt (l : List Nat) (j d : Nat) (h : j < l.length) :
    l.getD j d ∈ l := by
  rw [List.getD_eq_getElem _ _ h]
  exact List.getElem_mem h

/-! ### Char-boundary facts -/

lemma isCharBoundary_of_ascii (code : List Nat) (j : Nat)
    (ha : ∀ b ∈ code, b < 128) (hj : j ≤ code.length) :
    isCharBoundary code j = true := by
  rcases Nat.lt_or_ge j code.length with h | h
  · have hb := ha _ (getD_mem_of_lt code j 0 h)
    rw [List.getD_eq_getElem _ _ h] at hb
    simp [isCharBoundary, h, List.getD_eq_getElem _ _ h]
    omega
  · have : j = code.length := le_antisymm hj h
    simp [isCharBoundary, this]

/-! ### Equations for the memory operations -/

lemma inc_value_eq (m : Memory) (h : m.pointer < m.data.length) :
    inc_value m =
      .ok { m with data := m.data.set m.pointer ((m.data.getD m.pointer 0 + 1) % u16Mod) } := by
  simp [inc_value, h]

lemma inc_value_oob (m : Memory) (h : ¬ m.pointer < m.data.length) :
    inc_value m = .error .indexOutOfBounds := by
  simp [inc_value, h]

lemma dec_value_eq (m : Memory) (h : m.pointer < m.data.length) :
    dec_value m =
      .ok { m with data := m.data.set m.pointer ((m.data.getD m.pointer 0 + (u16Mod - 1)) % u16Mod) } := by
  simp [dec_value, h]

lemma dec_value_oob (m : Memory) (h : ¬ m.pointer < m.data.length) :
    dec_value m = .error .indexOutOfBounds := by
  simp [dec_value, h]

lemma printOp_eq (m : Memory) (h : m.pointer < m.data.length) :
    printOp m = .ok (m.data.getD m.pointer 0 % 256) := by
  simp [printOp, h]

lemma printOp_oob (m : Memory) (h : ¬ m.pointer < m.data.length) :
    printOp m = .error .indexOutOfBounds := by
  simp [printOp, h]

/-! ### Step equations for the evaluator -/

lemma eval_zero (code : List Nat) (i : Nat) (s : St) :
    eval 0 code i s = .outOfFuel := rfl

lemma eval_done (f : Nat) (code : List Nat) (i : Nat) (s : St)
    (h : ¬ i < code.length) :
    eval (f + 1) code i s = .ok s := by
  simp [eval, h]

lemma eval_step_boundary (f : Nat) (code : List Nat) (i : Nat) (s : St)
    (hi : i < code.length)
    (hb : ¬ (isCharBoundary code i && isCharBoundary code (i + 1)) = true) :
    eval (f + 1) code i s = .abort .charBoundary s := by
  simp only [eval, if_pos hi, if_neg hb]

lemma eval_step_gt (f : Nat) (code : List Nat) (i : Nat) (s : St)
    (hi : i < code.length)
    (hb : (isCharBoundary code i && isCharBoundary code (i + 1)) = true)
    (hc : code.getD i 0 = 62) :
    eval (f + 1) code i s = eval f code (i + 1) { s with mem := inc_pointer s.mem } := by
  simp only [eval, if_pos hi, if_pos hb, hc]

lemma eval_step_lt (f : Nat) (code : List Nat) (i : Nat) (s : St)
    (hi : i < code.length)
    (hb : (isCharBoundary code i && isCharBoundary code (i + 1)) = true)
    (hc : code.getD i 0 = 60) :
    eval (f + 1) code i s = eval f code (i + 1) { s with mem := dec_pointer s.mem } := by
  simp only [eval, if_pos hi, if_pos hb, hc]

lemma eval_step_plus (f : Nat) (code : List Nat) (i : Nat) (s : St)
    (hi : i < code.length)
    (hb : (isCharBoundary code i && isCharBoundary code (i + 1)) = true)
    (hc : code.getD i 0 = 43)
    (hp : s.mem.pointer < s.mem.data.length) :
    eval (f + 1) code i s =
      eval f code (i + 1)
        { s with mem :=
          { s.mem with data :=
            s.mem.data.set s.mem.pointer ((s.mem.data.getD s.mem.pointer 0 + 1) % u16Mod) } } := by
  simp only [eval, if_pos hi, if_pos hb, hc, inc_value_eq s.mem hp]

lemma eval_step_plus_oob (f : Nat) (code : List Nat) (i : Nat) (s : St)
    (hi : i < code.length)
    (hb : (isCharBoundary code i && isCharBoundary code (i + 1)) = true)
    (hc : code.getD i 0 = 43)
    (hp : ¬ s.mem.pointer < s.mem.data.length) :
    eval (f + 1) code i s = .abort .indexOutOfBounds s := by
  simp only [eval, if_pos hi, if_pos hb, hc, inc_value_oob s.mem hp]

lemma eval_step_minus (f : Nat) (code : List Nat) (i : Nat) (s : St)
    (hi : i < code.length)
    (hb : (isCharBoundary code i && isCharBoundary code (i + 1)) = true)
    (hc : code.getD i 0 = 45)
    (hp : s.mem.pointer < s.mem.data.length) :
    eval (f + 1) code i s =
      eval f code (i + 1)
        { s with mem :=
          { s.mem with data :=
            s.mem.data.set s.mem.pointer ((s.mem.data.getD s.mem.pointer 0 + (u16Mod - 1)) % u16Mod) } } := by
  simp only [eval, if_pos hi, if_pos hb, hc, dec_value_eq s.mem hp]

lemma eval_step_dot (f : Nat) (code : List Nat) (i : Nat) (s : St)
    (hi : i < code.length)
    (hb : (isCharBoundary code i && isCharBoundary code (i + 1)) = true)
    (hc : code.getD i 0 = 46)
    (hp : s.mem.pointer < s.mem.data.length) :
    eval (f + 1) code i s =
      eval f code (i + 1) { s with out := s.out ++ [s.mem.data.getD s.mem.pointer 0 % 256] } := by
  simp only [eval, if_pos hi, if_pos hb, hc, printOp_eq s.mem hp]

lemma eval_step_dot_oob (f : Nat) (code : List Nat) (i : Nat) (s : St)
    (hi : i < code.length)
    (hb : (isCharBoundary code i && isCharBoundary code (i + 1)) = true)
    (hc : code.getD i 0 = 46)
    (hp : ¬ s.mem.pointer < s.mem.data.length) :
    eval (f + 1) code i s = .abort .indexOutOfBounds s := by
  simp only [eval, if_pos hi, if_pos hb, hc, printOp_oob s.mem hp]

lemma eval_step_comma (f : Nat) (code : List Nat) (i : Nat) (s : St)
    (hi : i < code.length)
    (hb : (isCharBoundary code i && isCharBoundary code (i + 1)) = true)
    (hc : code.getD i 0 = 44)
    (b : Nat) (line : List Nat) (more : List (List Nat))
    (hin : s.input = (b :: line) :: more)
    (hp : s.mem.pointer < s.mem.data.length) :
    eval (f + 1) code i s =
      eval f code (i + 1)
        { s with mem := { s.mem with data := s.mem.data.set s.mem.pointer b },
                 input := more } := by
  simp only [eval, if_pos hi, if_pos hb, hc, hin, scanOp, if_pos hp]

lemma eval_step_comma_empty (f : Nat) (code : List Nat) (i : Nat) (s : St)
    (hi : i < code.length)
    (hb : (isCharBoundary code i && isCharBoundary code (i + 1)) = true)
    (hc : code.getD i 0 = 44)
    (hin : s.input = [] ∨ ∃ more, s.input = [] :: more) :
    eval (f + 1) code i s = .abort .noByteRead s := by
  rcases hin with hin | ⟨more, hin⟩ <;>
    simp only [eval, if_pos hi, if_pos hb, hc, hin, scanOp]

lemma eval_step_open (f : Nat) (code : List Nat) (i : Nat) (s : St)
    (hi : i < code.length)
    (hb : (isCharBoundary code i && isCharBoundary code (i + 1)) = true)
    (hc : code.getD i 0 = 91)
    (e : Nat) (he : find_next code i = some e) :
    eval (f + 1) code i s = bracketLoop f code i e s := by
  simp only [eval, if_pos hi, if_pos hb, hc, he]

lemma eval_step_open_unmatched (f : Nat) (code : List Nat) (i : Nat) (s : St)
    (hi : i < code.length)
    (hb : (isCharBoundary code i && isCharBoundary code (i + 1)) = true)
    (hc : code.getD i 0 = 91)
    (he : find_next code i = none) :
    eval (f + 1) code i s = .abort .mismatchBrackets s := by
  simp only [eval, if_pos hi, if_pos hb, hc, he]

lemma eval_step_skip (f : Nat) (code : List Nat) (i : Nat) (s : St)
    (hi : i < code.length)
    (hb : (isCharBoundary code i && isCharBoundary code (i + 1)) = true)
    (hc : code.getD i 0 ∉ ([62, 60, 43, 45, 46, 44, 91] : List Nat)) :
    eval (f + 1) code i s = eval f code (i + 1) s := by
  simp only [List.mem_cons, List.mem_singleton, not_or] at hc
  obtain ⟨h62, h60, h43, h45, h46, h44, h91⟩ := hc
  simp only [eval, if_pos hi, if_pos hb]
  split <;> simp_all

lemma bracketLoop_zero_cell (f : Nat) (code : List Nat) (start e : Nat) (s : St)
    (hp : s.mem.pointer < s.mem.data.length)
    (hc : s.mem.data.getD s.mem.pointer 0 = 0) :
    bracketLoop (f + 1) code start e s = eval f code (start + (e - start) + 1) s := by
  simp only [bracketLoop, if_pos hp, if_pos hc]

lemma bracketLoop_iter (f : Nat) (code : List Nat) (start e : Nat) (s : St)
    (hp : s.mem.pointer < s.mem.data.length)
    (hc : s.mem.data.getD s.mem.pointer 0 ≠ 0)
    (hs : (start + 1 ≤ e && e ≤ code.length &&
            isCharBoundary code (start + 1) && isCharBoundary code e) = true) :
    bracketLoop (f + 1) code start e s =
      match eval f ((code.drop (start + 1)).take (e - (start + 1))) 0 s with
      | .ok s2 => bracketLoop f code start e s2
      | r => r := by
  simp only [bracketLoop, if_pos hp, if_neg hc, if_pos hs]

lemma bracketLoop_oob (f : Nat) (code : List Nat) (start e : Nat) (s : St)
    (hp : ¬ s.mem.pointer < s.mem.data.length) :
    bracketLoop (f + 1) code start e s = .abort .indexOutOfBounds s := by
  simp only [bracketLoop, if_neg hp]

/-! ### Facts about `bracketDepth` -/

lemma bracketDepth_zero (s : List Nat) : bracketDepth s 0 = 0 := by
  simp [bracketDepth]

lemma bracketDepth_cons (b : Nat) (rest : List Nat) (j : Nat) :
    bracketDepth (b :: rest) (j + 1) =
      (if b = 91 then 1 else if b = 93 then (-1 : Int) else 0) + bracketDepth rest j := by
  simp only [bracketDepth, List.take_succ_cons, List.count_cons]
  by_cases h1 : b = 91 <;> by_cases h2 : b = 93 <;>
    simp [h1, h2] <;> push_cast <;> ring_nf <;> omega

lemma bracketDepth_succ (s : List Nat) (r : Nat) (h : r < s.length) :
    bracketDepth s (r + 1) =
      bracketDepth s r +
        (if s.getD r 0 = 91 then 1 else if s.getD r 0 = 93 then (-1 : Int) else 0) := by
  have ht : s.take (r + 1) = s.take r ++ [s.getD r 0] := by
    rw [List.take_succ, List.getD_eq_getElem _ _ h]
    simp [List.getElem?_eq_getElem h]
  simp only [bracketDepth, ht, List.count_append, List.count_singleton]
  by_cases h1 : s.getD r 0 = 91 <;> by_cases h2 : s.getD r 0 = 93 <;>
    simp [h1, h2] <;> push_cast <;> ring_nf <;> omega

/-! ### Soundness of `find_next` against the specification predicate -/

lemma findNextAux_sound :
    ∀ (t : List Nat) (p d j : Nat), (∀ b ∈ t, b < 128) → 1 ≤ d →
      findNextAux t 0 p d = some j →
      ∃ m, j = p + m ∧ m < t.length ∧ t.getD m 0 = 93 ∧
        (d : Int) + bracketDepth t m = 1 ∧
        ∀ r, r ≤ m → 1 ≤ (d : Int) + bracketDepth t r := by
  intro t
  induction t with
  | nil =>
    intro p d j _ _ h
    simp [findNextAux] at h
  | cons b rest ih =>
    intro p d j ha hd h
    have hbmem : b < 128 := ha b (by simp)
    have harest : ∀ x ∈ rest, x < 128 := fun x hx => ha x (by simp [hx])
    by_cases hb91 : b = 91
    · rw [findNextAux, if_pos hb91] at h
      obtain ⟨m', hj, hlen, hget, hdep, hall⟩ := ih (p + 1) (d + 1) j harest (by omega) h
      refine ⟨m' + 1, by omega, by simp; omega, by simpa using hget, ?_, ?_⟩
      · rw [bracketDepth_cons, if_pos hb91]
        push_cast at hdep ⊢
        omega
      · intro r hr
        cases r with
        | zero => simp [bracketDepth_zero]; omega
        | succ r' =>
          rw [bracketDepth_cons, if_pos hb91]
          have := hall r' (by omega)
          push_cast at this ⊢
          omega
    · by_cases hb93 : b = 93
      · rw [findNextAux, if_neg hb91, if_pos hb93] at h
        by_cases hd1 : d = 1
        · rw [if_pos hd1] at h
          obtain rfl : p = j := by simpa using h
          refine ⟨0, by omega, by simp, by simpa using hb93, ?_, ?_⟩
          · simp [bracketDepth_zero, hd1]
          · intro r hr
            obtain rfl : r = 0 := by omega
            simp [bracketDepth_zero]
            omega
        · rw [if_neg hd1] at h
          obtain ⟨m', hj, hlen, hget, hdep, hall⟩ :=
            ih (p + 1) (d - 1) j harest (by omega) h
          have hcast : ((d - 1 : Nat) : Int) = (d : Int) - 1 := by
            push_cast [hd]
            ring
          refine ⟨m' + 1, by omega, by simp; omega, by simpa using hget, ?_, ?_⟩
          · rw [bracketDepth_cons, if_neg hb91, if_pos hb93]
            rw [hcast] at hdep
            omega
          · intro r hr
            cases r with
            | zero => simp [bracketDepth_zero]; omega
            | succ r' =>
              rw [bracketDepth_cons, if_neg hb91, if_pos hb93]
              have := hall r' (by omega)
              rw [hcast] at this
              omega
      · have hlen1 : utf8Len b = 1 := by simp [utf8Len, hbmem]
        rw [findNextAux, if_neg hb91, if_neg hb93, hlen1] at h
        obtain ⟨m', hj, hlen, hget, hdep, hall⟩ := ih (p + 1) d j harest hd h
        refine ⟨m' + 1, by omega, by simp; omega, by simpa using hget, ?_, ?_⟩
        · rw [bracketDepth_cons, if_neg hb91, if_neg hb93]
          omega
        · intro r hr
          cases r with
          | zero => simp [bracketDepth_zero]; omega
          | succ r' =>
            rw [bracketDepth_cons, if_neg hb91, if_neg hb93]
            have := hall r' (by omega)
            omega

lemma find_next_sound (code : List Nat) (i e : Nat)
    (ha : ∀ b ∈ code, b < 128) (hi : i < code.length) (hc : code.getD i 0 = 91)
    (he : find_next code i = some e) :
    MatchSpec code i e := by
  have hdrop : code.drop i = 91 :: code.drop (i + 1) := by
    rw [List.drop_eq_getElem_cons hi, ← List.getD_eq_getElem _ 0 hi, hc]
  unfold find_next at he
  rw [hdrop] at he
  rw [findNextAux, if_pos rfl] at he
  obtain ⟨j, hj, rfl⟩ : ∃ j, findNextAux (code.drop (i + 1)) 0 1 1 = some j ∧ j + i = e := by
    cases hfa : findNextAux (code.drop (i + 1)) 0 1 1 with
    | none => rw [hfa] at he; simp at he
    | some j => rw [hfa] at he; simp at he; exact ⟨j, rfl, he⟩
  have harest : ∀ x ∈ code.drop (i + 1), x < 128 := fun x hx =>
    ha x (List.mem_of_mem_drop hx)
  obtain ⟨m, hm, hmlen, hget, hdep, hall⟩ :=
    findNextAux_sound (code.drop (i + 1)) 1 1 j harest le_rfl hj
  subst hm
  have hrestlen : (code.drop (i + 1)).length = code.length - (i + 1) := by
    simp
  have hielt : i < 1 + m + i := by omega
  have helen : 1 + m + i < code.length := by omega
  refine ⟨hielt, helen, ?_, ?_, ?_⟩
  · have := getD_drop' code (i + 1) m 0
    rw [this] at hget
    have : i + 1 + m = 1 + m + i := by omega
    rwa [this] at hget
  · have hsub : 1 + m + i - i + 1 = m + 2 := by omega
    rw [hsub, hdrop]
    have : (m + 2) = (m + 1) + 1 := rfl
    rw [this, bracketDepth_cons, if_pos rfl]
    have hstep : bracketDepth (code.drop (i + 1)) (m + 1) =
        bracketDepth (code.drop (i + 1)) m + (-1 : Int) := by
      rw [bracketDepth_succ _ m hmlen, hget]
      simp
    rw [hstep]
    omega
  · intro k hk1 hk2
    have hsub : k - i = (k - i - 1) + 1 := by omega
    rw [hsub, hdrop, bracketDepth_cons, if_pos rfl]
    have := hall (k - i - 1) (by omega)
    omega

lemma matchSpec_lt_absurd (code : List Nat) (i e e' : Nat)
    (h : MatchSpec code i e) (h' : MatchSpec code i e') (hlt : e < e') : False := by
  obtain ⟨hie, _, _, hzero, _⟩ := h
  obtain ⟨_, _, _, _, hpos⟩ := h'
  have := hpos (e + 1) (by omega) (by omega)
  have hidx : e + 1 - i = e - i + 1 := by omega
  rw [hidx] at this
  omega

lemma matchSpec_unique (code : List Nat) (i e e' : Nat)
    (h : MatchSpec code i e) (h' : MatchSpec code i e') : e = e' := by
  rcases Nat.lt_trichotomy e e' with hlt | heq | hlt
  · exact absurd (matchSpec_lt_absurd code i e e' h h' hlt) (by simp)
  · exact heq
  · exact absurd (matchSpec_lt_absurd code i e' e h' h hlt) (by simp)

/-! ### A run of `>` instructions -/

lemma eval_run_gt :
    ∀ (n f : Nat) (code : List Nat) (i : Nat) (s : St),
      i + n ≤ code.length →
      (∀ j, i ≤ j → j < i + n → code.getD j 0 = 62) →
      isCharBoundary code (i + n) = true →
      s.mem.pointer + n < usizeMod →
      eval (f + n) code i s =
        eval f code (i + n) { s with mem := { s.mem with pointer := s.mem.pointer + n } } := by
  intro n
  induction n with
  | zero =>
    intro f code i s _ _ _ _
    cases s with
    | mk mem out input => cases mem; simp
  | succ n ih =>
    intro f code i s hlen hall hb hptr
    have hi : i < code.length := by omega
    have hc : code.getD i 0 = 62 := hall i le_rfl (by omega)
    have hb1 : isCharBoundary code i = true := by
      simp [isCharBoundary, hi, List.getD_eq_getElem _ 0 hi] at hc ⊢
      omega
    have hb2 : isCharBoundary code (i + 1) = true := by
      rcases Nat.lt_or_ge (i + 1) code.length with hlt | hge
      · rcases Nat.lt_or_ge (i + 1) (i + (n + 1)) with hin | hout
        · have hc2 := hall (i + 1) (by omega) hin
          simp [isCharBoundary, hlt, List.getD_eq_getElem _ 0 hlt] at hc2 ⊢
          omega
        · have : i + 1 = i + (n + 1) := by omega
          rw [this]
          exact hb
      · have : i + 1 = code.length := by omega
        simp [isCharBoundary, this]
    have hstep := eval_step_gt (f + n) code i s hi (by simp [hb1, hb2]) hc
    have harith : f + (n + 1) = (f + n) + 1 := by omega
    rw [harith, hstep]
    have hmod : s.mem.pointer + 1 < usizeMod := by omega
    have hptr1 : (inc_pointer s.mem).pointer = s.mem.pointer + 1 := by
      simp [inc_pointer, Nat.mod_eq_of_lt hmod]
    rw [ih f code (i + 1) { s with mem := inc_pointer s.mem }
      (by omega)
      (fun j h1 h2 => hall j (by omega) (by omega))
      (by rw [show i + 1 + n = i + (n + 1) from by omega]; exact hb)
      (by rw [hptr1]; omega)]
    rw [show i + 1 + n = i + (n + 1) from by omega]
    apply congrArg (eval f code (i + (n + 1)))
    cases s with
    | mk mem out input =>
      cases mem with
      | mk ptr dat =>
        simp at hmod
        simp [inc_pointer, Nat.mod_eq_of_lt hmod]
        omega

/-! ### Concrete runs, stated over an arbitrary tail of the tape so that the
initial `CAPACITY`-cell tape never has to be traversed -/

lemma initState_nil_eq : initState [] = ⟨⟨0, 0 :: List.replicate 29999 0⟩, [], []⟩ := by
  unfold initState Memory.new CAPACITY
  rw [show (30000 : Nat) = 29999 + 1 from rfl, List.replicate_succ]

lemma length_cons_replicate (v : Nat) :
    ((v : Nat) :: List.replicate 29999 (0 : Nat)).length = 30000 := by
  rw [List.length_cons, List.length_replicate]

lemma fresh_ptr_lt (v : Nat) :
    (0 : Nat) < ((v : Nat) :: List.replicate 29999 (0 : Nat)).length := by
  rw [length_cons_replicate]
  norm_num

lemma run_plusplusdot :
    eval 5 [43, 43, 46] 0 (initState []) =
      .ok ⟨⟨0, 2 :: List.replicate 29999 0⟩, [2], []⟩ := by
  rw [initState_nil_eq]
  trans eval 4 [43, 43, 46] 1 ⟨⟨0, 1 :: List.replicate 29999 0⟩, [], []⟩
  · rw [eval_step_plus 4 [43, 43, 46] 0 _ (by decide) (by decide) (by decide) (fresh_ptr_lt 0)]
    rfl
  trans eval 3 [43, 43, 46] 2 ⟨⟨0, 2 :: List.replicate 29999 0⟩, [], []⟩
  · rw [eval_step_plus 3 [43, 43, 46] 1 _ (by decide) (by decide) (by decide) (fresh_ptr_lt 1)]
    rfl
  trans eval 2 [43, 43, 46] 3 ⟨⟨0, 2 :: List.replicate 29999 0⟩, [2], []⟩
  · rw [eval_step_dot 2 [43, 43, 46] 2 _ (by decide) (by decide) (by decide) (fresh_ptr_lt 2)]
    rfl
  · exact eval_done 1 [43, 43, 46] 3 _ (by decide)

lemma run_plusloop :
    eval 10 [43, 91, 45, 93] 0 (initState []) = .ok (initState []) := by
  rw [initState_nil_eq]
  trans eval 9 [43, 91, 45, 93] 1 ⟨⟨0, 1 :: List.replicate 29999 0⟩, [], []⟩
  · rw [eval_step_plus 9 [43, 91, 45, 93] 0 _ (by decide) (by decide) (by decide) (fresh_ptr_lt 0)]
    rfl
  trans bracketLoop 8 [43, 91, 45, 93] 1 3 ⟨⟨0, 1 :: List.replicate 29999 0⟩, [], []⟩
  · exact eval_step_open 8 [43, 91, 45, 93] 1 _ (by decide) (by decide) (by decide) 3 (by decide)
  have hinner : eval 7 [45] 0 ⟨⟨0, 1 :: List.replicate 29999 0⟩, [], []⟩ =
      .ok ⟨⟨0, 0 :: List.replicate 29999 0⟩, [], []⟩ := by
    trans eval 6 [45] 1 ⟨⟨0, 0 :: List.replicate 29999 0⟩, [], []⟩
    · rw [eval_step_minus 6 [45] 0 _ (by decide) (by decide) (by decide) (fresh_ptr_lt 1)]
      rfl
    · exact eval_done 5 [45] 1 _ (by decide)
  trans bracketLoop 7 [43, 91, 45, 93] 1 3 ⟨⟨0, 0 :: List.replicate 29999 0⟩, [], []⟩
  · rw [bracketLoop_iter 7 [43, 91, 45, 93] 1 3 _ (fresh_ptr_lt 1) (by exact one_ne_zero)
      (by decide)]
    rw [show ((([43, 91, 45, 93] : List Nat).drop (1 + 1)).take (3 - (1 + 1))) = [45] from rfl]
    rw [hinner]
  trans eval 6 [43, 91, 45, 93] 4 ⟨⟨0, 0 :: List.replicate 29999 0⟩, [], []⟩
  · rw [bracketLoop_zero_cell 6 [43, 91, 45, 93] 1 3 _ (fresh_ptr_lt 0) (by rfl)]
  · exact eval_done 5 [43, 91, 45, 93] 4 _ (by decide)

lemma run_decp_fresh :
    eval 2 [60] 0 (initState []) = .ok ⟨⟨2 ^ 64 - 1, List.replicate 30000 0⟩, [], []⟩ := by
  trans eval 1 [60] 1 ⟨⟨2 ^ 64 - 1, List.replicate 30000 0⟩, [], []⟩
  · rw [eval_step_lt 1 [60] 0 _ (by decide) (by decide) (by decide)]
    rfl
  · exact eval_done 0 [60] 1 _ (by decide)

lemma run_incp_last :
    eval 2 [62] 0 ⟨⟨29999, List.replicate 30000 0⟩, [], []⟩ =
      .ok ⟨⟨30000, List.replicate 30000 0⟩, [], []⟩ := by
  trans eval 1 [62] 1 ⟨⟨30000, List.replicate 30000 0⟩, [], []⟩
  · rw [eval_step_gt 1 [62] 0 _ (by decide) (by decide) (by decide)]
    rfl
  · exact eval_done 0 [62] 1 _ (by decide)

lemma run_decp_then_plus :
    eval 3 [60, 43] 0 (initState []) =
      .abort .indexOutOfBounds ⟨⟨2 ^ 64 - 1, List.replicate 30000 0⟩, [], []⟩ := by
  trans eval 2 [60, 43] 1 ⟨⟨2 ^ 64 - 1, List.replicate 30000 0⟩, [], []⟩
  · rw [eval_step_lt 2 [60, 43] 0 _ (by decide) (by decide) (by decide)]
    rfl
  · refine eval_step_plus_oob 1 [60, 43] 1 _ (by decide) (by decide) (by decide) ?_
    show ¬ (2 ^ 64 - 1 < (List.replicate 30000 (0 : Nat)).length)
    rw [List.length_replicate]
    norm_num

lemma run_close_fresh : eval 2 [93] 0 (initState []) = .ok (initState []) := by
  trans eval 1 [93] 1 (initState [])
  · exact eval_step_skip 1 [93] 0 _ (by decide) (by decide) (by decide)
  · exact eval_done 0 [93] 1 _ (by decide)

lemma run_open_alone (s : St) :
    eval 5 [91] 0 s = .abort .mismatchBrackets s := rfl

lemma isCharBoundary_length (code : List Nat) : isCharBoundary code code.length = true := by
  simp [isCharBoundary]

lemma run_gt30000 :
    eval 30001 (List.replicate 30000 62) 0 (initState []) =
      .ok ⟨⟨30000, List.replicate 30000 0⟩, [], []⟩ := by
  have h := eval_run_gt 30000 1 (List.replicate 30000 62) 0 (initState [])
    (by rw [List.length_replicate])
    (fun j hj1 hj2 => by
      have hj : j < (List.replicate 30000 (62 : Nat)).length := by
        rw [List.length_replicate]; omega
      rw [List.getD_eq_getElem _ 0 hj]
      exact List.getElem_replicate 62 hj)
    (by
      rw [show (0 + 30000 : Nat) = (List.replicate 30000 (62 : Nat)).length from by
        rw [List.length_replicate]]
      exact isCharBoundary_length _)
    (by show (0 : Nat) + 30000 < usizeMod; norm_num [usizeMod])
  rw [show (30001 : Nat) = 1 + 30000 from by norm_num, h]
  rw [eval_done 0 _ _ _ (by rw [List.length_replicate]; omega)]
  rfl

lemma run_gt30000_plus :
    eval 30002 (List.replicate 30000 62 ++ [43]) 0 (initState []) =
      .abort .indexOutOfBounds ⟨⟨30000, List.replicate 30000 0⟩, [], []⟩ := by
  have hlen : (List.replicate 30000 (62 : Nat) ++ [43]).length = 30001 := by
    rw [List.length_append, List.length_replicate]
    rfl
  have hgd : (List.replicate 30000 (62 : Nat) ++ [43]).getD 30000 0 = 43 := by
    rw [List.getD_append_right _ _ _ _ (by rw [List.length_replicate])]
    rw [List.length_replicate]
    rfl
  have hb30000 : isCharBoundary (List.replicate 30000 62 ++ [43]) 30000 = true := by
    unfold isCharBoundary
    rw [hgd, hlen]
    decide
  have hb30001 : isCharBoundary (List.replicate 30000 62 ++ [43]) 30001 = true := by
    rw [show (30001 : Nat) = (List.replicate 30000 (62 : Nat) ++ [43]).length from hlen.symm]
    exact isCharBoundary_length _
  have h := eval_run_gt 30000 2 (List.replicate 30000 62 ++ [43]) 0 (initState [])
    (by rw [hlen]; omega)
    (fun j hj1 hj2 => by
      have hj : j < (List.replicate 30000 (62 : Nat)).length := by
        rw [List.length_replicate]; omega
      rw [List.getD_append _ _ _ _ hj, List.getD_eq_getElem _ 0 hj]
      exact List.getElem_replicate 62 hj)
    (by rw [show (0 + 30000 : Nat) = 30000 from rfl]; exact hb30000)
    (by show (0 : Nat) + 30000 < usizeMod; norm_num [usizeMod])
  rw [show (30002 : Nat) = 2 + 30000 from by norm_num, h]
  rw [show (0 + 30000 : Nat) = 30000 from rfl]
  refine eval_step_plus_oob 1 _ 30000 _ (by rw [hlen]; omega) ?_ hgd ?_
  · rw [hb30000, show (30000 + 1 : Nat) = 30001 from rfl, hb30001]
    rfl
  · show ¬ (30000 < (List.replicate CAPACITY (0 : Nat)).length)
    rw [List.length_replicate]
    norm_num [CAPACITY]

/-! ### The claims -/

/-- Claim C1, counterexample.  The claim states that `dec_pointer` at cursor 0
and `inc_pointer` at the last valid index fail with an out-of-bounds error and
leave the cursor unchanged.  On the code, neither move fails: evaluating `<`
on a fresh tape terminates normally with the cursor wrapped to `2^64 - 1`, and
evaluating `>` with the cursor at the last index 29999 terminates normally
with the cursor set to 30000 (one past the end). -/
theorem claim_C1_counterexample :
    (eval 2 [60] 0 (initState []) =
      .ok ⟨⟨2 ^ 64 - 1, List.replicate 30000 0⟩, [], []⟩) ∧
    (eval 2 [62] 0 ⟨⟨29999, List.replicate 30000 0⟩, [], []⟩ =
      .ok ⟨⟨30000, List.replicate 30000 0⟩, [], []⟩) :=
  ⟨run_decp_fresh, run_incp_last⟩

/-- Claim C1, amended.  `dec_pointer` at cursor 0 does not fail: it wraps the
cursor to `2^64 - 1`; `inc_pointer` never fails: it sets the cursor to the
wrapped successor (so at the last index it moves one past the end).  Neither
move touches the cells, and the failure surfaces only at the next operation
that accesses the current cell, as an index-out-of-bounds panic with the
cells still unchanged (shown here for `<+` on a fresh tape). -/
theorem claim_C1_amended :
    (∀ m : Memory, m.pointer = 0 → dec_pointer m = { m with pointer := 2 ^ 64 - 1 }) ∧
    (∀ m : Memory, inc_pointer m = { m with pointer := (m.pointer + 1) % 2 ^ 64 }) ∧
    eval 3 [60, 43] 0 (initState []) =
      .abort .indexOutOfBounds ⟨⟨2 ^ 64 - 1, List.replicate 30000 0⟩, [], []⟩ := by
  refine ⟨?_, fun m => rfl, run_decp_then_plus⟩
  intro m h
  simp only [dec_pointer, h]
  norm_num [usizeMod]

/-- Witness for the amended claim C1 at concrete memories. -/
theorem claim_C1_amended_witness :
    (⟨0, [5]⟩ : Memory).pointer = 0 ∧ dec_pointer ⟨0, [5]⟩ = ⟨2 ^ 64 - 1, [5]⟩ ∧
    inc_pointer ⟨3, [5]⟩ = ⟨4, [5]⟩ := by
  refine ⟨rfl, ?_, ?_⟩
  · exact claim_C1_amended.1 ⟨0, [5]⟩ rfl
  · exact claim_C1_amended.2.1 ⟨3, [5]⟩

/-- Claim C2: cell arithmetic wraps at the 16-bit cell width: incrementing a
cell holding 65535 stores 0, and decrementing a cell holding 0 stores 65535
(the cursor must be in range, else the access itself panics). -/
theorem claim_C2 (m : Memory) (h : m.pointer < m.data.length) :
    (m.data.getD m.pointer 0 = 65535 →
      inc_value m = .ok { m with data := m.data.set m.pointer 0 }) ∧
    (m.data.getD m.pointer 0 = 0 →
      dec_value m = .ok { m with data := m.data.set m.pointer 65535 }) := by
  constructor
  · intro hv
    rw [inc_value_eq m h, hv]
    norm_num [u16Mod]
  · intro hv
    rw [dec_value_eq m h, hv]
    norm_num [u16Mod]

/-- Witness for claim C2 at one-cell memories holding 65535 and 0. -/
theorem claim_C2_witness :
    ((0 : Nat) < ([65535] : List Nat).length ∧
      inc_value ⟨0, [65535]⟩ = .ok ⟨0, [0]⟩) ∧
    ((0 : Nat) < ([0] : List Nat).length ∧
      dec_value ⟨0, [0]⟩ = .ok ⟨0, [65535]⟩) := by
  refine ⟨⟨by norm_num, ?_⟩, ⟨by norm_num, ?_⟩⟩
  · exact (claim_C2 ⟨0, [65535]⟩ (by norm_num)).1 rfl
  · exact (claim_C2 ⟨0, [0]⟩ (by norm_num)).2 rfl

/-- Claim C3, counterexample.  The claim describes the loop as a pre-test
while whose interior is skipped entirely on a zero cell and, on a non-zero
cell, evaluated as the sub-range strictly between the brackets.  With
multi-byte characters this is false, because `find_next` returns a character
index added to a byte base: on `[\u00e9\u00e9+]` (bytes
91,195,169,195,169,43,93) with a zero current cell the scan resumes at byte
5 — inside the loop — and executes the `+`, leaving the cell at 1 instead of
skipping the interior; and on `[\u00e9]` (bytes 91,195,169,93) with a
non-zero cell the body slice `&code[1..2]` panics on a char boundary instead
of evaluating the sub-range between the brackets. -/
theorem claim_C3_counterexample :
    (eval 10 [91, 195, 169, 195, 169, 43, 93] 0 ⟨⟨0, [0]⟩, [], []⟩ =
      .ok ⟨⟨0, [1]⟩, [], []⟩) ∧
    (eval 10 [91, 195, 169, 93] 0 ⟨⟨0, [1]⟩, [], []⟩ =
      .abort .charBoundary ⟨⟨0, [1]⟩, [], []⟩) :=
  ⟨by decide, by decide⟩

/-- Claim C3, amended: restricted to ASCII sources (every byte below 128),
where character and byte positions agree, the loop construct is a pre-test
while loop.  On `[` at `i` with `find_next` returning `e`, evaluation enters
the condition-checked loop; at each check, a zero current cell skips to
position `e + 1` with the state untouched and no recursive evaluation, and a
non-zero current cell evaluates the sub-range strictly between `i` and `e`
against the same state and then re-checks.  The end-to-end run `+[-]` on a
fresh tape returns to the initial state. -/
theorem claim_C3_amended (f : Nat) (code : List Nat) (i e : Nat) (s : St)
    (ha : ∀ b ∈ code, b < 128) (hi : i < code.length)
    (hc : code.getD i 0 = 91) (he : find_next code i = some e) :
    (eval (f + 1) code i s = bracketLoop f code i e s) ∧
    (∀ s' : St, s'.mem.pointer < s'.mem.data.length →
      (s'.mem.data.getD s'.mem.pointer 0 = 0 →
        bracketLoop (f + 1) code i e s' = eval f code (e + 1) s') ∧
      (s'.mem.data.getD s'.mem.pointer 0 ≠ 0 →
        bracketLoop (f + 1) code i e s' =
          match eval f ((code.drop (i + 1)).take (e - (i + 1))) 0 s' with
          | .ok s2 => bracketLoop f code i e s2
          | r => r)) ∧
    eval 10 [43, 91, 45, 93] 0 (initState []) = .ok (initState []) := by
  obtain ⟨hie, helen, _, _, _⟩ := find_next_sound code i e ha hi hc he
  have hb1 : isCharBoundary code i = true := isCharBoundary_of_ascii code i ha (by omega)
  have hb2 : isCharBoundary code (i + 1) = true :=
    isCharBoundary_of_ascii code (i + 1) ha (by omega)
  refine ⟨eval_step_open f code i s hi (by rw [hb1, hb2]; rfl) hc e he, ?_, run_plusloop⟩
  intro s' hp
  constructor
  · intro h0
    rw [bracketLoop_zero_cell f code i e s' hp h0]
    rw [show i + (e - i) + 1 = e + 1 from by omega]
  · intro hnz
    have hbe : isCharBoundary code e = true :=
      isCharBoundary_of_ascii code e ha (by omega)
    refine bracketLoop_iter f code i e s' hp hnz ?_
    simp only [Bool.and_eq_true, decide_eq_true_eq]
    exact ⟨⟨⟨by omega, by omega⟩, hb2⟩, hbe⟩

/-- Witness for the amended claim C3 at the two-byte program `[]`. -/
theorem claim_C3_witness :
    ((∀ b ∈ ([91, 93] : List Nat), b < 128) ∧ (0 : Nat) < ([91, 93] : List Nat).length ∧
      ([91, 93] : List Nat).getD 0 0 = 91 ∧ find_next [91, 93] 0 = some 1) ∧
    eval 3 [91, 93] 0 ⟨⟨0, [0]⟩, [], []⟩ = bracketLoop 2 [91, 93] 0 1 ⟨⟨0, [0]⟩, [], []⟩ := by
  refine ⟨⟨by decide, by decide, by decide, by decide⟩, ?_⟩
  exact (claim_C3_amended 2 [91, 93] 0 1 ⟨⟨0, [0]⟩, [], []⟩ (by decide) (by decide) (by decide)
    (by decide)).1

/-- Claim C4, counterexample.  The claim states that `find_next` returns the
position of the `]` that balances the nested pairs.  On `[\u00e9]` (bytes
91,195,169,93) it returns `some 2` — the *character* index of the `]` added
to the byte base — while the balancing `]` sits at byte 3 (byte 2 is the
continuation byte 169): position 3 satisfies the balancing specification and
position 2 does not. -/
theorem claim_C4_counterexample :
    find_next [91, 195, 169, 93] 0 = some 2 ∧
    MatchSpec [91, 195, 169, 93] 0 3 ∧
    ¬ MatchSpec [91, 195, 169, 93] 0 2 := by
  refine ⟨by decide, ⟨by decide, by decide, by decide, by decide, ?_⟩,
    fun h => absurd h.2.2.1 (by decide)⟩
  intro k hk1 hk2
  have h : k = 1 ∨ k = 2 ∨ k = 3 := by omega
  rcases h with rfl | rfl | rfl <;> decide

/-- Claim C4, amended: restricted to ASCII sources (every byte below 128),
where the character index `find_next` computes agrees with the byte
position, `find_next` returns the position of the `]` that balances all
nested `[`/`]` pairs in between (the specification predicate `MatchSpec`,
whose solution is unique); when no balancing `]` exists, evaluation aborts
with the mismatch panic at the moment the loop is entered, with the state
untouched — in particular the program `[` alone on a fresh tape fails this
way before any cell mutation. -/
theorem claim_C4_amended :
    (∀ (code : List Nat) (i : Nat),
      (∀ b ∈ code, b < 128) → i < code.length → code.getD i 0 = 91 →
      (∀ e, find_next code i = some e → MatchSpec code i e) ∧
      (∀ e e', MatchSpec code i e → MatchSpec code i e' → e = e') ∧
      (find_next code i = none →
        ∀ (f : Nat) (s : St), eval (f + 1) code i s = .abort .mismatchBrackets s) ∧
      ((∀ e, ¬ MatchSpec code i e) →
        ∀ (f : Nat) (s : St), eval (f + 1) code i s = .abort .mismatchBrackets s)) ∧
    eval 5 [91] 0 (initState []) = .abort .mismatchBrackets (initState []) := by
  refine ⟨?_, run_open_alone (initState [])⟩
  intro code i ha hi hc
  have hb1 : isCharBoundary code i = true := isCharBoundary_of_ascii code i ha (by omega)
  have hb2 : isCharBoundary code (i + 1) = true :=
    isCharBoundary_of_ascii code (i + 1) ha (by omega)
  refine ⟨fun e he => find_next_sound code i e ha hi hc he,
    fun e e' h h' => matchSpec_unique code i e e' h h', ?_, ?_⟩
  · intro hnone f s
    exact eval_step_open_unmatched f code i s hi (by rw [hb1, hb2]; rfl) hc hnone
  · intro hno f s
    cases hfn : find_next code i with
    | none => exact eval_step_open_unmatched f code i s hi (by rw [hb1, hb2]; rfl) hc hfn
    | some e => exact absurd (find_next_sound code i e ha hi hc hfn) (hno e)

/-- Witness for the amended claim C4: on `[]` the scan returns position 1,
which indeed satisfies the balancing specification. -/
theorem claim_C4_witness :
    ((∀ b ∈ ([91, 93] : List Nat), b < 128) ∧ (0 : Nat) < ([91, 93] : List Nat).length ∧
      ([91, 93] : List Nat).getD 0 0 = 91 ∧ find_next [91, 93] 0 = some 1) ∧
    MatchSpec [91, 93] 0 1 := by
  refine ⟨⟨by decide, by decide, by decide, by decide⟩, ?_⟩
  exact ((claim_C4_amended.1 [91, 93] 0 (by decide) (by decide) (by decide)).1) 1 (by decide)

/-- Claim C5, counterexample.  The claim states that `>` repeated 30000 times
on a fresh tape fails with an out-of-bounds error exactly at the 30000th
move.  On the code, the run terminates normally (no failure at any move),
leaving the cursor at 30000, one past the last valid index. -/
theorem claim_C5_counterexample :
    eval 30001 (List.replicate 30000 62) 0 (initState []) =
      .ok ⟨⟨30000, List.replicate 30000 0⟩, [], []⟩ :=
  run_gt30000

/-- Claim C5, amended.  `>` repeated 30000 times on a fresh tape terminates
normally with the cursor at 30000 (one past the last valid index); no move
raises an error.  An out-of-bounds panic surfaces only when a later operation
accesses the current cell, as shown by appending one `+`. -/
theorem claim_C5_amended :
    (eval 30001 (List.replicate 30000 62) 0 (initState []) =
      .ok ⟨⟨30000, List.replicate 30000 0⟩, [], []⟩) ∧
    (eval 30002 (List.replicate 30000 62 ++ [43]) 0 (initState []) =
      .abort .indexOutOfBounds ⟨⟨30000, List.replicate 30000 0⟩, [], []⟩) :=
  ⟨run_gt30000, run_gt30000_plus⟩

/-- Claim C6, counterexample.  The claim states that every character other
than the eight commands is skipped and never makes evaluation fail.  The
two-byte UTF-8 character `é` (bytes 195, 169) is not a command character,
yet evaluating it aborts at once with a char-boundary panic, because the
evaluator slices the one-byte range `&code[0..1]` inside the character. -/
theorem claim_C6_counterexample :
    eval 1 [195, 169] 0 (initState []) = .abort .charBoundary (initState []) :=
  eval_step_boundary 0 [195, 169] 0 (initState []) (by decide) (by decide)

/-- Claim C6, amended.  Every single-byte (ASCII) character that is not one
of the eight command characters is skipped with no effect on the tape, no
I/O, and no failure, only advancing the scan position — provided the next
byte position is a character boundary, which always holds in valid UTF-8
text; a multi-byte character instead makes the one-byte slice panic. -/
theorem claim_C6_amended (f : Nat) (code : List Nat) (i : Nat) (s : St)
    (hi : i < code.length)
    (hb2 : isCharBoundary code (i + 1) = true)
    (hbyte : code.getD i 0 < 128)
    (hcmd : code.getD i 0 ∉ ([62, 60, 43, 45, 46, 44, 91, 93] : List Nat)) :
    eval (f + 1) code i s = eval f code (i + 1) s := by
  have hb1 : isCharBoundary code i = true := by
    rw [List.getD_eq_getElem _ 0 hi] at hbyte
    simp [isCharBoundary, hi, List.getD_eq_getElem _ 0 hi]
    omega
  refine eval_step_skip f code i s hi (by rw [hb1, hb2]; rfl) ?_
  simp only [List.mem_cons, List.not_mem_nil, or_false, not_or] at hcmd ⊢
  exact ⟨hcmd.1, hcmd.2.1, hcmd.2.2.1, hcmd.2.2.2.1, hcmd.2.2.2.2.1,
    hcmd.2.2.2.2.2.1, hcmd.2.2.2.2.2.2.1⟩

/-- Witness for the amended claim C6 at a space character. -/
theorem claim_C6_witness :
    ((0 : Nat) < ([32] : List Nat).length ∧ isCharBoundary [32] 1 = true ∧
      ([32] : List Nat).getD 0 0 < 128 ∧
      ([32] : List Nat).getD 0 0 ∉ ([62, 60, 43, 45, 46, 44, 91, 93] : List Nat)) ∧
    eval 1 [32] 0 ⟨⟨0, [7]⟩, [], []⟩ = eval 0 [32] 1 ⟨⟨0, [7]⟩, [], []⟩ := by
  refine ⟨⟨by decide, by decide, by decide, by decide⟩, ?_⟩
  exact claim_C6_amended 0 [32] 0 ⟨⟨0, [7]⟩, [], []⟩ (by decide) (by decide) (by decide)
    (by decide)

/-- Claim C7: each `.` emits exactly one character whose code is the current
cell value truncated to its low 8 bits (321 truncates to 65), and `++.` on a
fresh tape outputs exactly the single character with code 2. -/
theorem claim_C7 (f : Nat) (code : List Nat) (i : Nat) (s : St)
    (hi : i < code.length)
    (hb : (isCharBoundary code i && isCharBoundary code (i + 1)) = true)
    (hc : code.getD i 0 = 46)
    (hp : s.mem.pointer < s.mem.data.length) :
    (eval (f + 1) code i s =
      eval f code (i + 1) { s with out := s.out ++ [s.mem.data.getD s.mem.pointer 0 % 256] }) ∧
    printOp ⟨0, [321]⟩ = .ok 65 ∧
    eval 5 [43, 43, 46] 0 (initState []) =
      .ok ⟨⟨0, 2 :: List.replicate 29999 0⟩, [2], []⟩ :=
  ⟨eval_step_dot f code i s hi hb hc hp, rfl, run_plusplusdot⟩

/-- Witness for claim C7 at a one-cell memory holding 300 (printed as 44). -/
theorem claim_C7_witness :
    ((0 : Nat) < ([46] : List Nat).length ∧
      (isCharBoundary [46] 0 && isCharBoundary [46] 1) = true ∧
      ([46] : List Nat).getD 0 0 = 46 ∧ (0 : Nat) < ([300] : List Nat).length) ∧
    eval 1 [46] 0 ⟨⟨0, [300]⟩, [], []⟩ = eval 0 [46] 1 ⟨⟨0, [300]⟩, [44], []⟩ := by
  refine ⟨⟨by decide, by decide, by decide, by decide⟩, ?_⟩
  exact (claim_C7 0 [46] 0 ⟨⟨0, [300]⟩, [], []⟩ (by decide) (by decide) (by decide)
    (by decide)).1

/-- Claim C8: each `,` consumes one input line, stores the first byte of that
line as the current cell value (replacing the old value), and leaves every
other cell unchanged. -/
theorem claim_C8 (f : Nat) (code : List Nat) (i : Nat) (s : St)
    (hi : i < code.length)
    (hb : (isCharBoundary code i && isCharBoundary code (i + 1)) = true)
    (hc : code.getD i 0 = 44)
    (b : Nat) (line : List Nat) (more : List (List Nat))
    (hin : s.input = (b :: line) :: more)
    (hp : s.mem.pointer < s.mem.data.length) :
    (eval (f + 1) code i s =
      eval f code (i + 1)
        { s with mem := { s.mem with data := s.mem.data.set s.mem.pointer b },
                 input := more }) ∧
    (∀ j, j ≠ s.mem.pointer →
      (s.mem.data.set s.mem.pointer b).getD j 0 = s.mem.data.getD j 0) := by
  refine ⟨eval_step_comma f code i s hi hb hc b line more hin hp, ?_⟩
  intro j hj
  simp only [List.getD_eq_getElem?_getD, List.getElem?_set_ne (Ne.symm hj)]

/-- Witness for claim C8: reading the line `A\n` (bytes 65, 10) into cell 0
of the memory `[5, 9]` stores 65 and leaves cell 1 untouched. -/
theorem claim_C8_witness :
    ((0 : Nat) < ([44] : List Nat).length ∧ (0 : Nat) < ([5, 9] : List Nat).length ∧
      (1 : Nat) ≠ 0) ∧
    eval 1 [44] 0 ⟨⟨0, [5, 9]⟩, [], [[65, 10]]⟩ = eval 0 [44] 1 ⟨⟨0, [65, 9]⟩, [], []⟩ ∧
    (([5, 9] : List Nat).set 0 65).getD 1 0 = ([5, 9] : List Nat).getD 1 0 := by
  have h := claim_C8 0 [44] 0 ⟨⟨0, [5, 9]⟩, [], [[65, 10]]⟩ (by decide) (by decide) (by decide)
    65 [10] [] rfl (by decide)
  exact ⟨⟨by decide, by decide, by decide⟩, h.1, h.2 1 (by decide)⟩

/-- Claim C9: the input-exhaustion policy is a fatal abort: when `,` reads no
bytes (end of input, or an empty read), evaluation aborts with the
`no byte read` panic and the whole state — in particular the current cell —
is left exactly as it was; no default value is substituted. -/
theorem claim_C9 (f : Nat) (code : List Nat) (i : Nat) (s : St)
    (hi : i < code.length)
    (hb : (isCharBoundary code i && isCharBoundary code (i + 1)) = true)
    (hc : code.getD i 0 = 44)
    (hin : s.input = [] ∨ ∃ more, s.input = [] :: more) :
    eval (f + 1) code i s = .abort .noByteRead s :=
  eval_step_comma_empty f code i s hi hb hc hin

/-- Witness for claim C9 at exhausted input. -/
theorem claim_C9_witness :
    ((0 : Nat) < ([44] : List Nat).length) ∧
    eval 1 [44] 0 ⟨⟨0, [5]⟩, [], []⟩ = .abort .noByteRead ⟨⟨0, [5]⟩, [], []⟩ := by
  refine ⟨by decide, ?_⟩
  exact claim_C9 0 [44] 0 ⟨⟨0, [5]⟩, [], []⟩ (by decide) (by decide) (by decide) (Or.inl rfl)

/-- Claim C10: a `]` reached by the forward scan is silently skipped: it hits
the default match arm, so evaluation continues past it with no error, no
tape mutation and no I/O; the program `]` alone terminates normally with the
fresh state unchanged. -/
theorem claim_C10 (f : Nat) (code : List Nat) (i : Nat) (s : St)
    (hi : i < code.length)
    (hb : (isCharBoundary code i && isCharBoundary code (i + 1)) = true)
    (hc : code.getD i 0 = 93) :
    (eval (f + 1) code i s = eval f code (i + 1) s) ∧
    eval 2 [93] 0 (initState []) = .ok (initState []) := by
  refine ⟨?_, run_close_fresh⟩
  refine eval_step_skip f code i s hi hb ?_
  rw [hc]
  decide

/-- Witness for claim C10 at the one-byte program `]`. -/
theorem claim_C10_witness :
    ((0 : Nat) < ([93] : List Nat).length) ∧
    eval 1 [93] 0 ⟨⟨0, [4]⟩, [], []⟩ = eval 0 [93] 1 ⟨⟨0, [4]⟩, [], []⟩ := by
  refine ⟨by decide, ?_⟩
  exact (claim_C10 0 [93] 0 ⟨⟨0, [4]⟩, [], []⟩ (by decide) (by decide) (by decide)).1

end Brainfuck
